import Mathlib

/-!
Shallow embedding of the paint-resolution and occlusion-culling core of the
pathfinder renderer (src/content/src/gradient.rs, src/renderer/src/paint.rs,
src/renderer/src/z_buffer.rs), together with theorems settling the frozen
claims C1..C10.

Conventions of the embedding:
* machine integers are `Nat`/`Int` with explicit reductions modulo `2 ^ w`
  where the Rust code can overflow or truncate (`as u16`, `as u32`, wrapping
  `u16` addition);
* `f32` values appearing in the claims (gradient stop offsets, the sample
  parameter `t`, opacity factors) are represented by `ℚ`.  Every concrete
  value used in a theorem below (0, 1/2, 1, small dyadic rationals, `u8/255`
  channel values scaled back by 255) is handled exactly, and `f32::round`
  is round-half-away-from-zero, which on the nonnegative values that occur
  here is `Int.floor (q + 1/2)`;
* Rust panics (out-of-bounds indexing, `unimplemented!()`, `expect`) are
  modelled by `Option`/`Except` with `none`/`.error`;
* the concurrent compare-and-swap retry loop of `ZBuffer::update` acts, at
  its linearization point, as an atomic "store the maximum" on the tile's
  counter; a finite concurrent execution is modelled by folding that
  operation over an arbitrary permutation of the submitted indices.
-/

namespace PF

/-! ### Machine-integer helpers -/

/-- Reduction of a `Nat` to the range of `u16` (Rust `as u16`, and wrapping
`u16` addition). -/
def u16Wrap (n : Nat) : Nat := n % 65536

/-- Reduction of a `Nat` to the range of `u32` (Rust `as u32`). -/
def u32Wrap (n : Nat) : Nat := n % 4294967296

/-- Rust `as u16` on an `i32` value: take the low 16 bits. -/
def toU16 (x : Int) : Nat := (x % 65536).toNat

/-- Rust `as i16` on an `i32` value: take the low 16 bits, sign-extended. -/
def toI16 (x : Int) : Int := ((x + 32768) % 65536) - 32768

/-- Rust `f32::round` (round half away from zero) on a nonnegative rational:
`Int.floor (q + 1/2)`.  All rounded values in this development are
nonnegative. -/
def roundHalfUp (q : ℚ) : Int := Int.floor (q + 1 / 2)

/-- Rust `as u8` applied to an integral float value: saturating cast into
`[0, 255]` (negative values clamp to 0 via `Int.toNat`). -/
def intToU8Sat (x : Int) : Nat := (min 255 x).toNat

/-! ### Colors (pathfinder_color, modelled from the spec)

The crate `pathfinder_color` is part of this repository but is not under
`src/`; the spec describes its alpha predicates (is-opaque means alpha is
full opacity, fully-transparent means alpha is zero) and its conversions
(channels are 8-bit, converted to floats in `[0, 1]` and quantized back). -/

structure ColorU where
  r : Nat
  g : Nat
  b : Nat
  a : Nat
deriving DecidableEq

/-- Modelled from the spec: `ColorU::transparent_black`. -/
def ColorU.transparentBlack : ColorU := ⟨0, 0, 0, 0⟩

/-- Modelled from the spec: `ColorU::is_opaque` is true iff alpha is full
opacity (255). -/
def ColorU.isOpaque (c : ColorU) : Bool := c.a == 255

/-- Modelled from the spec: a color is fully transparent iff alpha is 0. -/
def ColorU.isFullyTransparent (c : ColorU) : Bool := c.a == 0

/-- Modelled from the spec: floating-point color, channels in `[0, 1]`. -/
structure ColorF where
  r : ℚ
  g : ℚ
  b : ℚ
  a : ℚ
deriving DecidableEq

/-- Modelled from the spec: `ColorU::to_f32` divides each channel by 255. -/
def ColorU.toF32 (c : ColorU) : ColorF := ⟨c.r / 255, c.g / 255, c.b / 255, c.a / 255⟩

/-- Modelled from the spec: channel-wise linear interpolation
`self + (other - self) * t` (unclamped). -/
def ColorF.lerp (c d : ColorF) (t : ℚ) : ColorF :=
  ⟨c.r + (d.r - c.r) * t, c.g + (d.g - c.g) * t, c.b + (d.b - c.b) * t, c.a + (d.a - c.a) * t⟩

/-- Modelled from the spec: quantize a float color back to 8-bit channels
(scale by 255, round, saturating cast to `u8`). -/
def ColorF.toU8 (c : ColorF) : ColorU :=
  ⟨intToU8Sat (roundHalfUp (c.r * 255)), intToU8Sat (roundHalfUp (c.g * 255)),
   intToU8Sat (roundHalfUp (c.b * 255)), intToU8Sat (roundHalfUp (c.a * 255))⟩

/-! ### Gradients (src/content/src/gradient.rs) -/

structure ColorStop where
  color : ColorU
  offset : ℚ
deriving DecidableEq

/-- Default stop used only as the out-of-range placeholder of `List.getD`;
every dereference in the algorithms below is at an in-range index whenever
the Rust code does not panic. -/
def dummyStop : ColorStop := ⟨⟨0, 0, 0, 0⟩, 0⟩

/-- A gradient: the defining line segment (four `f32` coordinates, kept only
as inert data) and the stop list, ordered by offset. -/
structure Gradient where
  line : ℚ × ℚ × ℚ × ℚ
  stops : List ColorStop
deriving DecidableEq

/-- `Gradient::new`: empty stop list. -/
def Gradient.new (line : ℚ × ℚ × ℚ × ℚ) : Gradient := ⟨line, []⟩

/-- Modelled from the spec: `SortedVector::push` as used by
`Gradient::add_color_stop` (sorted_vector.rs is not under `src/`).  The spec
says stops are kept in ascending-offset order by insertion sort, stable for
equal offsets: a new stop is inserted after all stops whose offset is at
most its own. -/
def insertStopSorted (s : ColorStop) : List ColorStop → List ColorStop
  | [] => [s]
  | x :: xs => if x.offset ≤ s.offset then x :: insertStopSorted s xs else s :: x :: xs

/-- `Gradient::add_color_stop`. -/
def Gradient.addColorStop (g : Gradient) (s : ColorStop) : Gradient :=
  { g with stops := insertStopSorted s g.stops }

/-- Total comparison on the `ℚ` model of `f32`:
`stop.offset.partial_cmp(&t)` never hits the NaN fallback on these inputs. -/
def compareQ (a b : ℚ) : Ordering :=
  if a < b then .lt else if a = b then .eq else .gt

/-- Loop of Rust `slice::binary_search_by` (the 2020-era `base`/`size`
implementation, already composed with the `unwrap_or_else(identity)` that
`Gradient::sample` applies to its result: both the `Ok` index and the `Err`
insertion point are returned as a bare index).  `fuel` only bounds the
iteration count; it is initialised to the slice length, which dominates the
`log₂` number of iterations. -/
def bsLoop (f : ColorStop → Ordering) (l : List ColorStop) : Nat → Nat → Nat → Nat
  | 0, base, _ => base
  | Nat.succ fuel, base, size =>
    if size ≤ 1 then
      match f (l.getD base dummyStop) with
      | .lt => base + 1
      | .eq => base
      | .gt => base
    else
      let half := size / 2
      let mid := base + half
      let base' := if f (l.getD mid dummyStop) = .gt then base else mid
      bsLoop f l fuel base' (size - half)

/-- Rust `slice::binary_search_by` composed with `unwrap_or_else(identity)`:
returns the matching index when the comparator hits `Equal`, otherwise the
insertion point. -/
def binarySearchIdx (f : ColorStop → Ordering) (l : List ColorStop) : Nat :=
  if l.length = 0 then 0 else bsLoop f l l.length 0 l.length

/-- The `lower_index` computed inside `Gradient::sample`. -/
def Gradient.lowerIdx (g : Gradient) (t : ℚ) : Nat :=
  binarySearchIdx (fun stop => compareQ stop.offset t) g.stops

/-- The `upper_index` computed inside `Gradient::sample`. -/
def Gradient.upperIdx (g : Gradient) (t : ℚ) : Nat :=
  min (g.lowerIdx t + 1) (g.stops.length - 1)

/-- `Gradient::sample`.  `none` models the Rust panic of the out-of-bounds
indexing `self.stops.array[lower_index]` (that index can equal the length of
the stop list). -/
def Gradient.sample (g : Gradient) (t : ℚ) : Option ColorU :=
  if g.stops.isEmpty then some ColorU.transparentBlack
  else
    match g.stops.get? (g.lowerIdx t), g.stops.get? (g.upperIdx t) with
    | some lowerStop, some upperStop =>
      let denom := upperStop.offset - lowerStop.offset
      if denom = 0 then some lowerStop.color
      else some ((lowerStop.color.toF32.lerp upperStop.color.toF32
          ((t - lowerStop.offset) / denom)).toU8)
    | _, _ => none

/-- The per-stop alpha update of `set_opacity`:
`(a as f32 * alpha).round() as u8`. -/
def scaleAlpha (alpha : ℚ) (a : Nat) : Nat := intToU8Sat (roundHalfUp ((a : ℚ) * alpha))

/-- `Gradient::set_opacity`: scale every stop's alpha (no shortcut for
`alpha == 1.0` at this level). -/
def Gradient.setOpacity (g : Gradient) (alpha : ℚ) : Gradient :=
  { g with stops := g.stops.map (fun s => { s with color := { s.color with a := scaleAlpha alpha s.color.a } }) }

/-! ### Geometry (pathfinder_geometry, interface-level model)

Vectors, rectangles and the fixed-point `Transform2I` are plain data
consumed by this core; only componentwise addition is needed. -/

structure Vector2I where
  x : Int
  y : Int
deriving DecidableEq

instance : Add Vector2I := ⟨fun u v => ⟨u.x + v.x, u.y + v.y⟩⟩

theorem Vector2I.add_def (u v : Vector2I) : u + v = ⟨u.x + v.x, u.y + v.y⟩ := rfl

structure RectI where
  origin : Vector2I
  size : Vector2I
deriving DecidableEq

/-- Containment of one axis-aligned rectangle in another (half-open extents). -/
def rectContains (outer inner : RectI) : Prop :=
  outer.origin.x ≤ inner.origin.x ∧ outer.origin.y ≤ inner.origin.y ∧
  inner.origin.x + inner.size.x ≤ outer.origin.x + outer.size.x ∧
  inner.origin.y + inner.size.y ≤ outer.origin.y + outer.size.y

instance (outer inner : RectI) : Decidable (rectContains outer inner) := by
  unfold rectContains; infer_instance

/-- Disjointness of two axis-aligned rectangles (half-open extents). -/
def rectDisjoint (r s : RectI) : Prop :=
  r.origin.x + r.size.x ≤ s.origin.x ∨ s.origin.x + s.size.x ≤ r.origin.x ∨
  r.origin.y + r.size.y ≤ s.origin.y ∨ s.origin.y + s.size.y ≤ r.origin.y

instance (r s : RectI) : Decidable (rectDisjoint r s) := by
  unfold rectDisjoint; infer_instance

/-- The 2x2 integer matrix of `Transform2I` (lanes of the `I32x4`, in the
accessor order `m11, m21, m12, m22` used by the code). -/
structure Matrix2x2I where
  m11 : Int
  m21 : Int
  m12 : Int
  m22 : Int
deriving DecidableEq

structure Transform2I where
  matrix : Matrix2x2I
  vector : Vector2I
deriving DecidableEq

/-! ### Paints and the palette (src/renderer/src/paint.rs) -/

inductive Paint where
  | color (c : ColorU)
  | gradient (g : Gradient)
deriving DecidableEq

/-- `Paint::is_opaque`. -/
def Paint.isOpaque : Paint → Bool
  | .color c => c.isOpaque
  | .gradient g => g.stops.all (fun stop => stop.color.isOpaque)

/-- `Paint::is_fully_transparent`, exactly as the source has it: the `Color`
arm calls `color.is_opaque()`. -/
def Paint.isFullyTransparent : Paint → Bool
  | .color c => c.isOpaque
  | .gradient g => g.stops.all (fun stop => stop.color.isFullyTransparent)

/-- `Paint::set_opacity` (early return when `alpha == 1.0`). -/
def Paint.setOpacity (p : Paint) (alpha : ℚ) : Paint :=
  if alpha = 1 then p
  else
    match p with
    | .color c => .color { c with a := scaleAlpha alpha c.a }
    | .gradient g => .gradient (g.setOpacity alpha)

/-- A `PaintId` is the `u16` value wrapped by the newtype; we carry it as a
`Nat` already reduced mod `2 ^ 16` at its creation site. -/
structure Palette where
  paints : List Paint
  cache : List (Paint × Nat)
deriving DecidableEq

/-- `Palette::new`. -/
def Palette.new : Palette := ⟨[], []⟩

/-- `Palette::push_paint`.  The `HashMap` cache is modelled as an
association list probed by structural equality; reachable palettes never
hold two entries with the same key, so this lookup agrees with the map. -/
def Palette.pushPaint (pal : Palette) (p : Paint) : Palette × Nat :=
  match pal.cache.find? (fun e => e.1 == p) with
  | some e => (pal, e.2)
  | none =>
    let paintId := u16Wrap pal.paints.length
    (⟨pal.paints ++ [p], pal.cache ++ [(p, paintId)]⟩, paintId)

/-- The cache contents of a palette reached by pushing the paints of `l` in
order starting from index `k`: entry `i` maps `l[i]` to `(k + i) % 2^16`. -/
def cacheOfAux (k : Nat) : List Paint → List (Paint × Nat)
  | [] => []
  | p :: t => (p, u16Wrap k) :: cacheOfAux (k + 1) t

/-- Cache contents of a reachable palette. -/
def cacheOf (l : List Paint) : List (Paint × Nat) := cacheOfAux 0 l

/-- Well-formedness of a palette state: the cache is exactly the map from
each stored paint to the id assigned when it was appended, and the paint
list has no duplicates.  Every state reachable from `Palette::new` by
`push_paint` satisfies this. -/
def Palette.Reachable (pal : Palette) : Prop :=
  pal.cache = cacheOf pal.paints ∧ pal.paints.Nodup

/-! ### The texture allocator and the solid-color tile packer

The generic `TextureAllocator` (allocator.rs) is not under `src/`; the spec
treats it as an opaque service granting axis-aligned regions or failing.  It
is modelled by an oracle giving, for each `k`, the origin of the `k`-th
granted region (`none` = exhausted). -/

structure TextureLocation where
  rect : RectI
deriving DecidableEq

/-- Modelled from the spec: the state of the external allocator is reduced
to its grant oracle plus the number of grants made so far. -/
structure TextureAllocator where
  oracle : Nat → Option Vector2I
  allocCount : Nat

/-- Modelled from the spec: `TextureAllocator::allocate` hands out the next
granted region of the requested size, or fails. -/
def TextureAllocator.allocate (al : TextureAllocator) (size : Vector2I) :
    Option (TextureLocation × TextureAllocator) :=
  match al.oracle al.allocCount with
  | none => none
  | some origin => some (⟨⟨origin, size⟩⟩, ⟨al.oracle, al.allocCount + 1⟩)

/-- `SOLID_COLOR_TILE_LENGTH`. -/
def solidColorTileLength : Nat := 16

/-- `MAX_SOLID_COLORS_PER_TILE`. -/
def maxSolidColorsPerTile : Nat := 256

structure SolidColorTileBuilderData where
  tileLocation : TextureLocation
  nextIndex : Nat
deriving DecidableEq

/-- `SolidColorTileBuilder::allocate`: open a fresh 16x16 tile if none is
open (`none` models the `expect` panic when the allocator is exhausted),
carve out the next 1x1 sub-rectangle row-major, close the tile once all 256
slots are used. -/
def scbAllocate (b : Option SolidColorTileBuilderData) (al : TextureAllocator) :
    Option (TextureLocation × Option SolidColorTileBuilderData × TextureAllocator) :=
  let opened : Option (SolidColorTileBuilderData × TextureAllocator) :=
    match b with
    | some data => some (data, al)
    | none =>
      match al.allocate ⟨(solidColorTileLength : Nat), (solidColorTileLength : Nat)⟩ with
      | none => none
      | some (loc, al') => some (⟨loc, 0⟩, al')
  match opened with
  | none => none
  | some (data, al') =>
    let subtileOrigin : Vector2I :=
      ⟨(data.nextIndex % solidColorTileLength : Nat), (data.nextIndex / solidColorTileLength : Nat)⟩
    let location : TextureLocation := ⟨⟨data.tileLocation.rect.origin + subtileOrigin, ⟨1, 1⟩⟩⟩
    let next := data.nextIndex + 1
    let b' : Option SolidColorTileBuilderData :=
      if next = maxSolidColorsPerTile then none else some ⟨data.tileLocation, next⟩
    some (location, b', al')

/-- Run `n` consecutive `SolidColorTileBuilder::allocate` calls starting
from a fresh builder (`SolidColorTileBuilder::new()`) and a fresh allocator
driven by the oracle `O`, collecting the returned locations. -/
def scbRun (O : Nat → Option Vector2I) :
    Nat → Option (List TextureLocation × Option SolidColorTileBuilderData × TextureAllocator)
  | 0 => some ([], none, ⟨O, 0⟩)
  | n + 1 =>
    match scbRun O n with
    | none => none
    | some (locs, b, al) =>
      match scbAllocate b al with
      | none => none
      | some (loc, b', al') => some (locs ++ [loc], b', al')

/-! ### Palette compilation (`Palette::build_paint_info`) -/

/-- `PAINT_TEXTURE_LENGTH`. -/
def paintTextureLength : Nat := 1024

/-- `PAINT_TEXTURE_SCALE` = 65536 / 1024. -/
def paintTextureScale : Nat := 64

structure PaintMetadata where
  texTransform : Transform2I
  isOpaque : Bool
deriving DecidableEq

/-- The texel buffer of the paint atlas, byte-addressed (zero-initialised
array of `1024 * 1024 * 4` bytes, represented functionally). -/
def PaintTexels := Nat → Nat

structure PaintData where
  size : Vector2I
  texels : PaintTexels

structure PaintInfo where
  data : PaintData
  metadata : List PaintMetadata

/-- The two panic sites of `Palette::build_paint_info`: the `expect` on a
failed tile allocation, and the `unimplemented!()` on a gradient paint. -/
inductive BuildError where
  | allocationFailed
  | unimplementedPaintKind
deriving DecidableEq

/-- `put_pixel`: write the four RGBA bytes of `color` at `position` in the
row-major byte buffer. -/
def putPixel (texels : PaintTexels) (position : Vector2I) (color : ColorU) : PaintTexels :=
  let index := (position.y.toNat * paintTextureLength + position.x.toNat) * 4
  fun i =>
    if i = index then color.r
    else if i = index + 1 then color.g
    else if i = index + 2 then color.b
    else if i = index + 3 then color.a
    else texels i

/-- The loop body of `Palette::build_paint_info` over the paint list in id
order, threading the allocator, the solid-color tile builder, the texel
buffer and the metadata accumulator. -/
def buildPaintInfoGo (al : TextureAllocator) (b : Option SolidColorTileBuilderData)
    (texels : PaintTexels) (metadata : List PaintMetadata) :
    List Paint → Except BuildError (PaintTexels × List PaintMetadata)
  | [] => .ok (texels, metadata)
  | paint :: rest =>
    match paint with
    | .color c =>
      match scbAllocate b al with
      | none => .error .allocationFailed
      | some (textureLocation, b', al') =>
        let texels' := putPixel texels textureLocation.rect.origin c
        let texTransform : Transform2I :=
          { matrix := ⟨0, 0, 0, 0⟩,
            vector := ⟨textureLocation.rect.origin.x * (paintTextureScale : Nat) +
                         ((paintTextureScale : Nat) / 2 : Nat),
                       textureLocation.rect.origin.y * (paintTextureScale : Nat) +
                         ((paintTextureScale : Nat) / 2 : Nat)⟩ }
        buildPaintInfoGo al' b' texels'
          (metadata ++ [⟨texTransform, (Paint.color c).isOpaque⟩]) rest
    | .gradient _ => .error .unimplementedPaintKind

/-- `Palette::build_paint_info`, parametrised by the allocator's grant
oracle.  The Rust panics surface as `.error`. -/
def Palette.buildPaintInfo (pal : Palette) (O : Nat → Option Vector2I) :
    Except BuildError PaintInfo :=
  match buildPaintInfoGo ⟨O, 0⟩ none (fun _ => 0) [] pal.paints with
  | .error e => .error e
  | .ok (texels, metadata) =>
    .ok ⟨⟨⟨(paintTextureLength : Nat), (paintTextureLength : Nat)⟩, texels⟩, metadata⟩

/-! ### The z-buffer (src/renderer/src/z_buffer.rs) -/

/-- The effect of one `ZBuffer::update(coords, object_index)` call on the
addressed tile's counter.  The candidate depth `(object_index + 1) as usize`
is computed by a wrapping 16-bit addition before widening; the
compare-and-swap retry loop stores it exactly when it exceeds the current
value, i.e. the counter becomes the maximum of the old value and the
candidate. -/
def zUpdate (depth objectIndex : Nat) : Nat :=
  let newDepth := u16Wrap (objectIndex + 1)
  if depth < newDepth then newDepth else depth

/-- The counter of one tile after a finite batch of `ZBuffer::update` calls
(listed in linearization order) starting from the initial value 0. -/
def runUpdates (l : List Nat) : Nat := l.foldl zUpdate 0

/-- `PathObject`, reduced to the only field this core reads: modelled from
the spec ("looks up the tile's owning path's paint"), scene.rs not being
under `src/`.  The stored value is the `u16` inside the path's `PaintId`. -/
structure PathObject where
  paint : Nat
deriving DecidableEq

/-- `SolidTileBatchPrimitive` (gpu_data layout: two `i16`, then `u16`
fields). -/
structure SolidTileBatchPrimitive where
  tileX : Int
  tileY : Int
  objectIndex : Nat
  textureM00 : Nat
  textureM10 : Nat
  textureM01 : Nat
  textureM11 : Nat
  textureM02 : Nat
  textureM12 : Nat
  pad : Nat
deriving DecidableEq

/-- `SolidTileBatchPrimitive::new` (the caller passes `object_index` already
cast to `u16`). -/
def SolidTileBatchPrimitive.make (tileCoords : Vector2I) (objectIndex : Nat)
    (texTransform : Transform2I) : SolidTileBatchPrimitive :=
  { tileX := toI16 tileCoords.x
    tileY := toI16 tileCoords.y
    objectIndex := objectIndex
    textureM00 := toU16 texTransform.matrix.m11
    textureM10 := toU16 texTransform.matrix.m21
    textureM01 := toU16 texTransform.matrix.m12
    textureM11 := toU16 texTransform.matrix.m22
    textureM02 := toU16 texTransform.vector.x
    textureM12 := toU16 texTransform.vector.y
    pad := 0 }

/-- The z-buffer after all writers are done: the tile rectangle's origin and
width (from the external `DenseTileMap`, modelled from the spec as the
row-major coords/index bijection over the covering rectangle) and the final
per-tile counters. -/
structure ZBuffer where
  originX : Int
  originY : Int
  width : Nat
  data : List Nat
deriving DecidableEq

/-- Default metadata placeholder for `List.getD`; dereferenced only at
in-range indices. -/
def dummyMetadata : PaintMetadata := ⟨⟨⟨0, 0, 0, 0⟩, ⟨0, 0⟩⟩, false⟩

/-- The tile coordinates `index_to_coords(i) + rect.origin()` used when
emitting a primitive for tile `i`. -/
def ZBuffer.tileCoords (zb : ZBuffer) (i : Nat) : Vector2I :=
  ⟨(i % zb.width : Nat) + zb.originX, (i / zb.width : Nat) + zb.originY⟩

/-- The loop of `ZBuffer::build_solid_tiles` over a list of tile indices.
`none` models the Rust panics of the `paths[...]`/`paint_metadata[...]`
indexing. -/
def buildSolidTilesGo (zb : ZBuffer) (paths : List PathObject)
    (paintMetadata : List PaintMetadata) (rangeStart rangeEnd : Nat) :
    List Nat → Option (List SolidTileBatchPrimitive)
  | [] => some []
  | tileIndex :: rest =>
    let depth := zb.data.getD tileIndex 0
    if depth = 0 then buildSolidTilesGo zb paths paintMetadata rangeStart rangeEnd rest
    else
      let objectIndex := u32Wrap (depth - 1)
      if objectIndex < rangeStart ∨ rangeEnd ≤ objectIndex then
        buildSolidTilesGo zb paths paintMetadata rangeStart rangeEnd rest
      else
        match paths.get? objectIndex with
        | none => none
        | some pathObject =>
          match paintMetadata.get? pathObject.paint with
          | none => none
          | some md =>
            (buildSolidTilesGo zb paths paintMetadata rangeStart rangeEnd rest).map
              (fun prims =>
                SolidTileBatchPrimitive.make (zb.tileCoords tileIndex)
                  (u16Wrap objectIndex) md.texTransform :: prims)

/-- `ZBuffer::build_solid_tiles` over the half-open object range
`[rangeStart, rangeEnd)`. -/
def ZBuffer.buildSolidTiles (zb : ZBuffer) (paths : List PathObject)
    (paintMetadata : List PaintMetadata) (rangeStart rangeEnd : Nat) :
    Option (List SolidTileBatchPrimitive) :=
  buildSolidTilesGo zb paths paintMetadata rangeStart rangeEnd (List.range zb.data.length)

/-- Whether tile `i` makes `build_solid_tiles` emit a primitive: nonzero
counter and recorded object index `counter - 1` inside the range. -/
def ZBuffer.qualifies (zb : ZBuffer) (rangeStart rangeEnd : Nat) (i : Nat) : Bool :=
  decide (zb.data.getD i 0 ≠ 0 ∧ rangeStart ≤ zb.data.getD i 0 - 1 ∧
    zb.data.getD i 0 - 1 < rangeEnd)

/-- The primitive `build_solid_tiles` emits for a qualifying tile `i`. -/
def ZBuffer.primAt (zb : ZBuffer) (paths : List PathObject)
    (paintMetadata : List PaintMetadata) (i : Nat) : SolidTileBatchPrimitive :=
  SolidTileBatchPrimitive.make (zb.tileCoords i) (u16Wrap (zb.data.getD i 0 - 1))
    ((paintMetadata.getD ((paths.getD (zb.data.getD i 0 - 1) ⟨0⟩).paint)
      dummyMetadata).texTransform)

/-! ### Helper lemmas -/

theorem zUpdate_eq_max (d i : Nat) : zUpdate d i = max d (u16Wrap (i + 1)) := by
  unfold zUpdate
  dsimp only
  split <;> omega

theorem zUpdate_mono (d i : Nat) : d ≤ zUpdate d i := by
  rw [zUpdate_eq_max]; exact Nat.le_max_left _ _

theorem zUpdate_rightComm (d a b : Nat) :
    zUpdate (zUpdate d a) b = zUpdate (zUpdate d b) a := by
  simp only [zUpdate_eq_max]
  rw [Nat.max_assoc, Nat.max_assoc, Nat.max_comm (u16Wrap (a + 1))]

theorem foldl_zUpdate_bounded (l : List Nat) (hb : ∀ i ∈ l, i ≤ 65534) :
    ∀ d, List.foldl zUpdate d l = List.foldl (fun x i => Nat.max x (i + 1)) d l := by
  induction l with
  | nil => intro d; rfl
  | cons a t ih =>
    intro d
    have ha : a ≤ 65534 := hb a (List.mem_cons_self a t)
    have hwrap : u16Wrap (a + 1) = a + 1 := Nat.mod_eq_of_lt (by omega)
    simp only [List.foldl_cons, zUpdate_eq_max, hwrap]
    exact ih (fun i hi => hb i (List.mem_cons_of_mem a hi)) _

theorem foldl_max_succ (l : List Nat) :
    ∀ d, List.foldl (fun x i => Nat.max x (i + 1)) (d + 1) l = List.foldl Nat.max d l + 1 := by
  induction l with
  | nil => intro d; rfl
  | cons a t ih =>
    intro d
    simp only [List.foldl_cons, Nat.succ_max_succ]
    exact ih (Nat.max d a)

theorem runUpdates_eq_max_succ (l : List Nat) (hne : l ≠ [])
    (hb : ∀ i ∈ l, i ≤ 65534) :
    runUpdates l = l.foldl Nat.max 0 + 1 := by
  cases l with
  | nil => exact absurd rfl hne
  | cons a t =>
    unfold runUpdates
    rw [foldl_zUpdate_bounded _ hb]
    simp only [List.foldl_cons]
    have h0 : Nat.max 0 (a + 1) = a + 1 := Nat.max_eq_right (Nat.zero_le _)
    have h0' : Nat.max 0 a = a := Nat.max_eq_right (Nat.zero_le _)
    rw [h0, h0', foldl_max_succ]

/-! ### C1 -/

/-- C1 counterexample: the claim fails as stated at the single-call batch
`[65535]` (65535 is a legal `u16` object index): the candidate depth
`object_index + 1` wraps to 0 in the 16-bit addition, so the counter stays
0 instead of becoming `max(i) + 1 = 65536`. -/
theorem c1_counterexample : runUpdates [65535] = 0 ∧ 0 ≠ 65535 + 1 := by decide

/-- C1 (amended): provided every submitted object index is at most 65534,
after any finite batch of `ZBuffer::update` calls on a tile, applied in any
order (any permutation `l'` of the batch `l`), the tile's counter equals
`max(object_index) + 1`; moreover no individual `update` call ever decreases
a tile's counter (unconditionally). -/
theorem c1_amended (l l' : List Nat) (hne : l ≠ []) (hb : ∀ i ∈ l, i ≤ 65534)
    (hp : l'.Perm l) :
    List.foldl zUpdate 0 l' = l.foldl Nat.max 0 + 1 ∧ ∀ d i, d ≤ zUpdate d i := by
  refine ⟨?_, fun d i => zUpdate_mono d i⟩
  have hperm : List.foldl zUpdate 0 l' = List.foldl zUpdate 0 l :=
    hp.foldl_eq' (fun x _ y _ z => zUpdate_rightComm z x y) 0
  rw [hperm]
  exact runUpdates_eq_max_succ l hne hb

/-- C1 witness: the amended theorem applied to the batch `[2, 1]` delivered
in the order `[1, 2]`. -/
theorem c1_witness :
    List.foldl zUpdate 0 [1, 2] = [2, 1].foldl Nat.max 0 + 1 ∧ ∀ d i, d ≤ zUpdate d i :=
  c1_amended [2, 1] [1, 2] (by decide) (by decide) (by decide)

/-! ### C10 -/

/-- C10: `ZBuffer::update` computes the candidate depth `object_index + 1`
in wrapping 16-bit arithmetic before widening to `usize`, so for
`object_index = 65535` the candidate is 0 and the call leaves any counter
unchanged; the monotonic-maximum convergence to `max + 1` holds under the
precondition that every submitted index is at most 65534. -/
theorem c10_thm :
    (∀ d, zUpdate d 65535 = d) ∧ u16Wrap (65535 + 1) = 0 ∧
      ∀ (l : List Nat), l ≠ [] → (∀ i ∈ l, i ≤ 65534) →
        runUpdates l = l.foldl Nat.max 0 + 1 := by
  refine ⟨fun d => ?_, by decide, fun l h1 h2 => runUpdates_eq_max_succ l h1 h2⟩
  rw [zUpdate_eq_max]
  have : u16Wrap (65535 + 1) = 0 := by decide
  rw [this]
  exact Nat.max_eq_left (Nat.zero_le _)

/-- C10 witness: the update at 65535 is a no-op on counter 7, and a bounded
batch converges to its maximum plus one. -/
theorem c10_witness :
    zUpdate 7 65535 = 7 ∧ runUpdates [2, 5, 1] = [2, 5, 1].foldl Nat.max 0 + 1 :=
  ⟨c10_thm.1 7, c10_thm.2.2 [2, 5, 1] (by decide) (by decide)⟩

/-! ### C2 -/

/-- A single-stop gradient (offset 1/2, opaque red). -/
def gC2single : Gradient := (Gradient.new (0, 0, 1, 0)).addColorStop ⟨⟨255, 0, 0, 255⟩, 1/2⟩

/-- A two-stop gradient with distinct offsets 1/2 and 1. -/
def gC2below : Gradient :=
  ((Gradient.new (0, 0, 1, 0)).addColorStop ⟨⟨100, 0, 0, 255⟩, 1/2⟩).addColorStop
    ⟨⟨0, 0, 50, 255⟩, 1⟩

/-- C2: evaluation of the code at the failing inputs.  For `t = 1`, above
the single stop's offset 1/2, the binary search returns the insertion point
1 and `stops.array[1]` is out of bounds: the code panics (`none`) instead of
returning the last stop's color.  For `t = 0`, below the first offset of the
two-stop gradient, the code extrapolates with a negative ratio and returns
(200, 0, 0, 255), not the first stop's color (100, 0, 0, 255). -/
theorem c2_code_bug :
    gC2single.sample 1 = none ∧
      gC2below.sample 0 = some ⟨200, 0, 0, 255⟩ ∧
      (⟨200, 0, 0, 255⟩ : ColorU) ≠ ⟨100, 0, 0, 255⟩ :=
  of_decide_eq_true (by with_unfolding_all rfl)

/-! ### C3 -/

/-- C3: `Paint::is_fully_transparent` on a `Color` paint returns the color's
is-opaque test (alpha = 255), not a fully-transparent test, and on a
`Gradient` paint returns whether every stop's color is fully transparent
(alpha = 0); the opaque color (0,0,0,255) witnesses that the `Color` arm
differs from a true fully-transparent test. -/
theorem c3_thm :
    (∀ c : ColorU, (Paint.color c).isFullyTransparent = c.isOpaque) ∧
      (∀ g : Gradient, (Paint.gradient g).isFullyTransparent =
        g.stops.all (fun s => s.color.isFullyTransparent)) ∧
      ∃ c : ColorU, (Paint.color c).isFullyTransparent ≠ c.isFullyTransparent :=
  ⟨fun _ => rfl, fun _ => rfl, ⟨⟨0, 0, 0, 255⟩, by decide⟩⟩

/-! ### C8 -/

/-- C8 (amended): whenever the binary-search index `lower_index` of
`Gradient::sample` is in bounds and the two bracketing stops it selects have
equal offsets, `sample` returns the color of the stop at `lower_index`
exactly, through the `denom == 0` early return (no division is evaluated).
For a two-stop gradient with both stops at one offset, `lower_index` is 1,
so this is the second stop in the array: under the stable ascending-offset
insertion of `add_color_stop` that is the later-pushed stop, not the
earlier-pushed one. -/
theorem c8_amended (g : Gradient) (t : ℚ) (h1 : g.lowerIdx t < g.stops.length)
    (h2 : (g.stops.getD (g.upperIdx t) dummyStop).offset =
      (g.stops.getD (g.lowerIdx t) dummyStop).offset) :
    g.sample t = some (g.stops.getD (g.lowerIdx t) dummyStop).color := by
  have hlen : 0 < g.stops.length := Nat.lt_of_le_of_lt (Nat.zero_le _) h1
  have hupper : g.upperIdx t < g.stops.length := by
    unfold Gradient.upperIdx
    omega
  have hne : g.stops.isEmpty = false := by
    rw [List.isEmpty_eq_false]
    intro h
    rw [h] at hlen
    exact Nat.lt_irrefl 0 hlen
  unfold Gradient.sample
  rw [hne]
  simp only [Bool.false_eq_true, if_false, List.get?_eq_getElem?,
    List.getElem?_eq_getElem h1, List.getElem?_eq_getElem hupper]
  have hl : g.stops.getD (g.lowerIdx t) dummyStop = g.stops[g.lowerIdx t] := by
    simp [List.getD_eq_getElem?_getD, List.getElem?_eq_getElem h1]
  have hu : g.stops.getD (g.upperIdx t) dummyStop = g.stops[g.upperIdx t] := by
    simp [List.getD_eq_getElem?_getD, List.getElem?_eq_getElem hupper]
  rw [hl, hu] at h2
  have hdenom : g.stops[g.upperIdx t].offset - g.stops[g.lowerIdx t].offset = 0 := by
    rw [h2, sub_self]
  simp [hdenom, List.getElem?_eq_getElem h1]

/-- The gradient of the C8 counterexample: opaque black pushed first, opaque
white pushed second, both at offset 1/2.  Stable insertion puts black at
index 0, white at index 1. -/
def gC8 : Gradient :=
  ((Gradient.new (0, 0, 1, 0)).addColorStop ⟨⟨0, 0, 0, 255⟩, 1/2⟩).addColorStop
    ⟨⟨255, 255, 255, 255⟩, 1/2⟩

/-- C8 counterexample: sampling `gC8` at the shared offset returns white,
the later-pushed stop's color, not the earlier-pushed black. -/
theorem c8_counterexample :
    gC8.stops = [⟨⟨0, 0, 0, 255⟩, 1/2⟩, ⟨⟨255, 255, 255, 255⟩, 1/2⟩] ∧
      gC8.sample (1/2) = some ⟨255, 255, 255, 255⟩ ∧
      (⟨255, 255, 255, 255⟩ : ColorU) ≠ ⟨0, 0, 0, 255⟩ :=
  of_decide_eq_true (by with_unfolding_all rfl)

/-- C8 witness: the amended theorem applied to `gC8` at `t = 1/2`. -/
theorem c8_witness :
    gC8.sample (1/2) = some (gC8.stops.getD (gC8.lowerIdx (1/2)) dummyStop).color :=
  c8_amended gC8 (1/2) (of_decide_eq_true (by with_unfolding_all rfl))
    (of_decide_eq_true (by with_unfolding_all rfl))

/-! ### C9 -/

theorem scaleAlpha_le (alpha : ℚ) (a : Nat) : scaleAlpha alpha a ≤ 255 := by
  unfold scaleAlpha intToU8Sat
  omega

theorem scaleAlpha_one (a : Nat) (h : a ≤ 255) : scaleAlpha 1 a = a := by
  unfold scaleAlpha roundHalfUp intToU8Sat
  have h1 : ((a : ℚ) * 1 + 1 / 2) = ((a : Int) : ℚ) + (1 / 2 : ℚ) := by push_cast; ring
  rw [h1, Int.floor_int_add]
  have h2 : ⌊(1 / 2 : ℚ)⌋ = 0 := by norm_num [Int.floor_eq_iff]
  rw [h2]
  omega

theorem scaleAlpha_half (a : Nat) (h : a ≤ 255) : scaleAlpha (1/2) a = (a + 1) / 2 := by
  unfold scaleAlpha roundHalfUp intToU8Sat
  have h1 : ((a : ℚ) * (1 / 2) + 1 / 2) = ((((a : Int) + 1 : Int) : ℚ)) / ((2 : ℕ) : ℚ) := by
    push_cast; ring
  rw [h1, Rat.floor_intCast_div_natCast]
  omega

/-- Helper: `Gradient::set_opacity(1.0)` is arithmetically the identity on
the output of any previous `set_opacity` (every stored alpha is at most
255). -/
theorem setOpacity_half_then_one (g : Gradient) :
    (g.setOpacity (1/2)).setOpacity 1 = g.setOpacity (1/2) := by
  unfold Gradient.setOpacity
  simp only [List.map_map]
  congr 1
  apply List.map_congr_left
  intro s _
  simp only [Function.comp_apply]
  rw [scaleAlpha_one _ (scaleAlpha_le _ _)]

/-- C9 counterexample: the claim asserts that for some gradient, applying
`set_opacity` with factors 0.5 then 1.0 differs from applying it once with
0.5; in fact the two agree for every gradient, because a factor of 1.0 is an
exact identity on 8-bit alphas. -/
theorem c9_counterexample :
    ¬ ∃ g : Gradient, (g.setOpacity (1/2)).setOpacity 1 ≠ g.setOpacity (1/2) := by
  rintro ⟨g, hne⟩
  exact hne (setOpacity_half_then_one g)

/-- C9 (amended): `set_opacity(0.5)` replaces each stop's alpha `a`
(an 8-bit value) by `round(a * 0.5)`, i.e. `(a + 1) / 2` in integer
arithmetic with round-half-away-from-zero; and applying `set_opacity` twice
with factors 0.5 then 1.0 IS equivalent to applying it once with factor 0.5
(exact equality); `Paint::set_opacity(1.0)` is likewise an exact identity by
its early return. -/
theorem c9_amended (g : Gradient) (hb : ∀ s ∈ g.stops, s.color.a ≤ 255) :
    (g.setOpacity (1/2)).stops.map (fun s => s.color.a) =
        g.stops.map (fun s => (s.color.a + 1) / 2) ∧
      (g.setOpacity (1/2)).setOpacity 1 = g.setOpacity (1/2) ∧
      ∀ p : Paint, p.setOpacity 1 = p := by
  refine ⟨?_, setOpacity_half_then_one g, fun p => by unfold Paint.setOpacity; simp⟩
  unfold Gradient.setOpacity
  simp only [List.map_map]
  apply List.map_congr_left
  intro s hs
  simp only [Function.comp_apply]
  exact scaleAlpha_half _ (hb s hs)

/-- A concrete two-stop gradient with odd and even alphas. -/
def gC9 : Gradient := ⟨(0, 0, 1, 0), [⟨⟨10, 20, 30, 5⟩, 0⟩, ⟨⟨1, 2, 3, 4⟩, 1⟩]⟩

/-- C9 witness: the amended theorem applied to `gC9` (alphas 5 and 4 become
3 and 2). -/
theorem c9_witness :
    (gC9.setOpacity (1/2)).stops.map (fun s => s.color.a) =
        gC9.stops.map (fun s => (s.color.a + 1) / 2) ∧
      (gC9.setOpacity (1/2)).setOpacity 1 = gC9.setOpacity (1/2) ∧
      ∀ p : Paint, p.setOpacity 1 = p :=
  c9_amended gC9 (by decide)

/-! ### C5 -/

theorem cacheOfAux_append (l : List Paint) (p : Paint) :
    ∀ k, cacheOfAux k (l ++ [p]) = cacheOfAux k l ++ [(p, u16Wrap (k + l.length))] := by
  induction l with
  | nil => intro k; simp [cacheOfAux]
  | cons a t ih =>
    intro k
    show cacheOfAux k (a :: (t ++ [p])) = _
    simp only [cacheOfAux, ih (k + 1), List.length_cons, List.cons_append]
    have h : k + 1 + t.length = k + (t.length + 1) := by omega
    rw [h]

theorem find_cacheOfAux_of_not_mem (p : Paint) (l : List Paint) (h : p ∉ l) :
    ∀ k, (cacheOfAux k l).find? (fun e => e.1 == p) = none := by
  induction l with
  | nil => intro k; rfl
  | cons a t ih =>
    intro k
    have hbeq : (a == p) = false := by
      simp only [beq_eq_false_iff_ne, ne_eq]
      intro hq
      exact h (hq ▸ List.mem_cons_self a t)
    simp only [cacheOfAux, List.find?]
    simp only [hbeq]
    exact ih (fun hm => h (List.mem_cons_of_mem a hm)) (k + 1)

theorem find_cacheOfAux_of_mem (p : Paint) (l : List Paint) (h : p ∈ l) :
    ∀ k, (cacheOfAux k l).find? (fun e => e.1 == p) =
      some (p, u16Wrap (k + l.findIdx (fun q => q == p))) := by
  induction l with
  | nil => cases h
  | cons a t ih =>
    intro k
    by_cases hap : a = p
    · subst hap
      have hbeq : (a == a) = true := by simp
      simp only [cacheOfAux, List.find?, List.findIdx_cons]
      simp [hbeq]
    · have hbeq : (a == p) = false := by simp [hap]
      have hmem : p ∈ t := by
        cases h with
        | head => exact absurd rfl hap
        | tail _ ht => exact ht
      simp only [cacheOfAux, List.find?, List.findIdx_cons]
      simp only [hbeq, cond_false]
      rw [ih hmem (k + 1)]
      have harith : k + 1 + t.findIdx (fun q => q == p) =
          k + (t.findIdx (fun q => q == p) + 1) := by omega
      simp [harith]

theorem mem_cacheOfAux (l : List Paint) (e : Paint × Nat) :
    ∀ k, e ∈ cacheOfAux k l → ∃ i, i < l.length ∧ e.2 = u16Wrap (k + i) := by
  induction l with
  | nil => intro k h; cases h
  | cons a t ih =>
    intro k h
    rcases List.mem_cons.1 h with he | ht
    · exact ⟨0, by simp, by rw [he]; simp⟩
    · rcases ih (k + 1) ht with ⟨i, hi, he⟩
      refine ⟨i + 1, by simpa using hi, ?_⟩
      rw [he]
      congr 1
      omega

theorem findIdx_beq_getElem? (l : List Paint) (p : Paint) (h : p ∈ l) :
    l[l.findIdx (fun x => x == p)]? = some p := by
  induction l with
  | nil => cases h
  | cons a t ih =>
    by_cases hap : a = p
    · subst hap
      simp [List.findIdx_cons]
    · have hbeq : (a == p) = false := by simp [hap]
      have hmem : p ∈ t := by
        cases h with
        | head => exact absurd rfl hap
        | tail _ ht => exact ht
      simp [List.findIdx_cons, hbeq, ih hmem]

theorem findIdx_beq_ne (l : List Paint) (p q : Paint) (hp : p ∈ l) (hq : q ∈ l)
    (hne : p ≠ q) : l.findIdx (fun x => x == p) ≠ l.findIdx (fun x => x == q) := by
  intro heq
  have h1 := findIdx_beq_getElem? l p hp
  have h2 := findIdx_beq_getElem? l q hq
  rw [heq, h2] at h1
  exact hne (Option.some.inj h1).symm

/-- Behaviour of `push_paint` on a cache hit (no length bound needed for the
raw form: the cached id is returned verbatim). -/
theorem pushPaint_mem_raw (pal : Palette) (p : Paint) (hc : pal.cache = cacheOf pal.paints)
    (h : p ∈ pal.paints) :
    pal.pushPaint p = (pal, u16Wrap (pal.paints.findIdx (fun q => q == p))) := by
  unfold Palette.pushPaint
  rw [hc]
  unfold cacheOf
  rw [find_cacheOfAux_of_mem p _ h 0]
  simp

/-- Behaviour of `push_paint` on a cache miss (raw form, id still wrapped). -/
theorem pushPaint_not_mem_raw (pal : Palette) (p : Paint)
    (hc : pal.cache = cacheOf pal.paints) (h : p ∉ pal.paints) :
    pal.pushPaint p =
      (⟨pal.paints ++ [p], pal.cache ++ [(p, u16Wrap pal.paints.length)]⟩,
        u16Wrap pal.paints.length) := by
  unfold Palette.pushPaint
  rw [hc]
  unfold cacheOf
  rw [find_cacheOfAux_of_not_mem p _ h 0]

theorem pushPaint_not_mem_reachable (pal : Palette) (p : Paint) (hr : pal.Reachable)
    (h : p ∉ pal.paints) : (pal.pushPaint p).1.Reachable := by
  rw [pushPaint_not_mem_raw pal p hr.1 h]
  constructor
  · show pal.cache ++ [(p, u16Wrap pal.paints.length)] = cacheOf (pal.paints ++ [p])
    rw [hr.1]
    unfold cacheOf
    rw [cacheOfAux_append pal.paints p 0, Nat.zero_add]
  · show (pal.paints ++ [p]).Nodup
    simp [List.nodup_append, hr.2, h]

/-- C5 (amended): provided the palette holds fewer than `2^16` paints,
`push_paint` returns the previously assigned id (the index of the first
structurally equal paint) and leaves the palette unchanged on a hit;
otherwise it appends the paint and returns the fresh sequential id equal to
the number of paints pushed before it, an id assigned to no earlier paint;
and (when one more push still stays below `2^16`) two solid colors that
differ at all — in particular only in alpha — pushed in sequence receive
distinct ids. -/
theorem c5_amended (pal : Palette) (p : Paint) (hr : pal.Reachable)
    (hlen : pal.paints.length < 65536) :
    (p ∈ pal.paints →
        pal.pushPaint p = (pal, pal.paints.findIdx (fun q => q == p))) ∧
      (p ∉ pal.paints →
        pal.pushPaint p =
          (⟨pal.paints ++ [p], pal.cache ++ [(p, pal.paints.length)]⟩,
            pal.paints.length) ∧
        ∀ e ∈ pal.cache, e.2 ≠ pal.paints.length) ∧
      (pal.paints.length + 1 < 65536 → ∀ c c' : ColorU, c ≠ c' →
        ((pal.pushPaint (.color c)).1.pushPaint (.color c')).2 ≠
          (pal.pushPaint (.color c)).2) := by
  have hwrapLen : u16Wrap pal.paints.length = pal.paints.length := by
    unfold u16Wrap; omega
  refine ⟨?_, ?_, ?_⟩
  · intro h
    rw [pushPaint_mem_raw pal p hr.1 h]
    have hidx : pal.paints.findIdx (fun q => q == p) < pal.paints.length :=
      List.findIdx_lt_length_of_exists ⟨p, h, by simp⟩
    have : u16Wrap (pal.paints.findIdx (fun q => q == p)) =
        pal.paints.findIdx (fun q => q == p) := by
      unfold u16Wrap; omega
    rw [this]
  · intro h
    refine ⟨?_, ?_⟩
    · rw [pushPaint_not_mem_raw pal p hr.1 h, hwrapLen]
    · intro e he
      rw [hr.1] at he
      rcases mem_cacheOfAux pal.paints e 0 he with ⟨i, hi, hei⟩
      rw [hei]
      unfold u16Wrap
      omega
  · intro hlen2 c c' hcc'
    have hPQ : (Paint.color c) ≠ (Paint.color c') := by
      intro h; exact hcc' (Paint.color.inj h)
    by_cases h1 : (Paint.color c) ∈ pal.paints
    · rw [pushPaint_mem_raw pal _ hr.1 h1]
      have hidx1 : pal.paints.findIdx (fun q => q == Paint.color c) < pal.paints.length :=
        List.findIdx_lt_length_of_exists ⟨_, h1, by simp⟩
      have hw1 : u16Wrap (pal.paints.findIdx (fun q => q == Paint.color c)) =
          pal.paints.findIdx (fun q => q == Paint.color c) := by
        unfold u16Wrap; omega
      simp only [hw1]
      by_cases h2 : (Paint.color c') ∈ pal.paints
      · rw [pushPaint_mem_raw pal _ hr.1 h2]
        have hidx2 : pal.paints.findIdx (fun q => q == Paint.color c') < pal.paints.length :=
          List.findIdx_lt_length_of_exists ⟨_, h2, by simp⟩
        have hw2 : u16Wrap (pal.paints.findIdx (fun q => q == Paint.color c')) =
            pal.paints.findIdx (fun q => q == Paint.color c') := by
          unfold u16Wrap; omega
        simp only [hw2]
        exact findIdx_beq_ne pal.paints _ _ h2 h1 hPQ.symm
      · rw [pushPaint_not_mem_raw pal _ hr.1 h2]
        simp only [hwrapLen]
        omega
    · rw [pushPaint_not_mem_raw pal _ hr.1 h1]
      have hr1 : Palette.Reachable
          ⟨pal.paints ++ [Paint.color c], pal.cache ++
            [(Paint.color c, u16Wrap pal.paints.length)]⟩ := by
        have := pushPaint_not_mem_reachable pal (Paint.color c) hr h1
        rwa [pushPaint_not_mem_raw pal _ hr.1 h1] at this
      by_cases h2 : (Paint.color c') ∈ pal.paints ++ [Paint.color c]
      · have h2' : (Paint.color c') ∈ pal.paints := by
          rcases List.mem_append.1 h2 with hm | hm
          · exact hm
          · exact absurd (List.mem_singleton.1 hm).symm hPQ
        rw [pushPaint_mem_raw _ _ hr1.1 h2]
        have hidx2 : (pal.paints ++ [Paint.color c]).findIdx
            (fun q => q == Paint.color c') < pal.paints.length := by
          rw [List.findIdx_append]
          have hlt : pal.paints.findIdx (fun q => q == Paint.color c') <
              pal.paints.length :=
            List.findIdx_lt_length_of_exists ⟨_, h2', by simp⟩
          simp [hlt]
        show u16Wrap ((pal.paints ++ [Paint.color c]).findIdx
            (fun q => q == Paint.color c')) ≠ u16Wrap pal.paints.length
        unfold u16Wrap
        omega
      · rw [pushPaint_not_mem_raw _ _ hr1.1 h2]
        show u16Wrap (pal.paints ++ [Paint.color c]).length ≠ u16Wrap pal.paints.length
        have hlen1 : (pal.paints ++ [Paint.color c]).length = pal.paints.length + 1 := by
          simp
        rw [hlen1]
        unfold u16Wrap
        omega

/-- A small reachable palette for the C5 witness. -/
def palW : Palette :=
  ⟨[Paint.color ⟨1, 2, 3, 4⟩, Paint.color ⟨9, 9, 9, 9⟩],
   cacheOf [Paint.color ⟨1, 2, 3, 4⟩, Paint.color ⟨9, 9, 9, 9⟩]⟩

/-- C5 witness: the amended theorem applied to `palW` with a present paint,
an absent paint, and two solid colors differing only in alpha. -/
theorem c5_witness :
    palW.pushPaint (Paint.color ⟨9, 9, 9, 9⟩) =
        (palW, palW.paints.findIdx (fun q => q == Paint.color ⟨9, 9, 9, 9⟩)) ∧
      (palW.pushPaint (Paint.color ⟨7, 7, 7, 7⟩) =
          (⟨palW.paints ++ [Paint.color ⟨7, 7, 7, 7⟩],
            palW.cache ++ [(Paint.color ⟨7, 7, 7, 7⟩, palW.paints.length)]⟩,
            palW.paints.length) ∧
        ∀ e ∈ palW.cache, e.2 ≠ palW.paints.length) ∧
      ((palW.pushPaint (.color ⟨1, 2, 3, 4⟩)).1.pushPaint (.color ⟨1, 2, 3, 5⟩)).2 ≠
        (palW.pushPaint (.color ⟨1, 2, 3, 4⟩)).2 :=
  ⟨(c5_amended palW (Paint.color ⟨9, 9, 9, 9⟩) (by constructor <;> decide)
      (by decide)).1 (by decide),
   (c5_amended palW (Paint.color ⟨7, 7, 7, 7⟩) (by constructor <;> decide)
      (by decide)).2.1 (by decide),
   (c5_amended palW (Paint.color ⟨1, 2, 3, 4⟩) (by constructor <;> decide)
      (by decide)).2.2 (by decide) ⟨1, 2, 3, 4⟩ ⟨1, 2, 3, 5⟩ (by decide)⟩

/-- The 65536 pairwise distinct solid colors of the C5 counterexample. -/
def bigPaint (i : Nat) : Paint := Paint.color ⟨i / 256, i % 256, 0, 255⟩

def bigList : List Paint := (List.range 65536).map bigPaint

/-- The palette state reached by pushing the 65536 paints of `bigList` in
order into a fresh palette. -/
def bigPal : Palette := ⟨bigList, cacheOf bigList⟩

/-- A paint not among the 65536 (its blue channel is 1). -/
def newPaint : Paint := Paint.color ⟨0, 0, 1, 255⟩

theorem bigPaint_injective : Function.Injective bigPaint := by
  intro i j h
  unfold bigPaint at h
  have h2 := Paint.color.inj h
  have h3 : i / 256 = j / 256 ∧ i % 256 = j % 256 := by
    refine ⟨congrArg ColorU.r h2, congrArg ColorU.g h2⟩
  omega

theorem newPaint_not_mem : newPaint ∉ bigList := by
  unfold bigList
  intro h
  rcases List.mem_map.1 h with ⟨i, _, hi⟩
  have h2 := Paint.color.inj hi
  have h3 : (0 : Nat) = 1 := congrArg ColorU.b h2
  exact absurd h3 (by decide)

theorem bigList_nodup : bigList.Nodup :=
  List.Nodup.map bigPaint_injective (List.nodup_range 65536)

theorem bigList_length : bigList.length = 65536 := by
  unfold bigList; simp

/-- The fold that replays `push_paint` over a paint list. -/
def pushAll (l : List Paint) : Palette :=
  List.foldl (fun pal p => (pal.pushPaint p).1) Palette.new l

theorem pushAll_go (l : List Paint) :
    ∀ l₀ : List Paint, (l₀ ++ l).Nodup →
      List.foldl (fun (pal : Palette) (p : Paint) => (pal.pushPaint p).1)
          (⟨l₀, cacheOf l₀⟩ : Palette) l =
        (⟨l₀ ++ l, cacheOf (l₀ ++ l)⟩ : Palette) := by
  induction l with
  | nil => intro l₀ _; simp
  | cons a t ih =>
    intro l₀ hnd
    have hanotmem : a ∉ l₀ := by
      intro hm
      rcases List.nodup_append.1 hnd with ⟨_, _, hdisj⟩
      exact hdisj hm (List.mem_cons_self a t)
    simp only [List.foldl_cons]
    have hstep : ((⟨l₀, cacheOf l₀⟩ : Palette).pushPaint a).1 =
        (⟨l₀ ++ [a], cacheOf (l₀ ++ [a])⟩ : Palette) := by
      rw [pushPaint_not_mem_raw ⟨l₀, cacheOf l₀⟩ a rfl hanotmem]
      show (⟨l₀ ++ [a], cacheOf l₀ ++ [(a, u16Wrap l₀.length)]⟩ : Palette) = _
      congr 1
      unfold cacheOf
      rw [cacheOfAux_append l₀ a 0, Nat.zero_add]
    rw [hstep]
    have hnd' : ((l₀ ++ [a]) ++ t).Nodup := by
      have hassoc : (l₀ ++ [a]) ++ t = l₀ ++ (a :: t) := by simp
      rw [hassoc]
      exact hnd
    have hih := ih (l₀ ++ [a]) hnd'
    rw [hih]
    simp

theorem pushAll_bigList : pushAll bigList = bigPal := by
  have h := pushAll_go bigList [] (by rw [List.nil_append]; exact bigList_nodup)
  rw [List.nil_append] at h
  exact h

/-- C5 counterexample: `bigPal` is a reachable palette holding 65536 paints
(the result of pushing `bigList` into a fresh palette); pushing the absent
`newPaint` returns id 0 — the `len as u16` cast wraps — instead of a fresh
id equal to the number of paints pushed before it (65536). -/
theorem bigPal_paints : bigPal.paints = bigList := by rw [bigPal]

theorem bigPal_cache_eq : bigPal.cache = cacheOf bigPal.paints := by
  rw [bigPal_paints, bigPal]

theorem c5_counterexample :
    pushAll bigList = bigPal ∧ bigPal.Reachable ∧ newPaint ∉ bigPal.paints ∧
      bigPal.paints.length = 65536 ∧ (bigPal.pushPaint newPaint).2 = 0 ∧
      (0 : Nat) ≠ 65536 := by
  have hlen : bigPal.paints.length = 65536 := by rw [bigPal_paints]; exact bigList_length
  have hnm : newPaint ∉ bigPal.paints := by rw [bigPal_paints]; exact newPaint_not_mem
  have hnodup : bigPal.paints.Nodup := by rw [bigPal_paints]; exact bigList_nodup
  refine ⟨pushAll_bigList, ⟨bigPal_cache_eq, hnodup⟩, hnm, hlen, ?_, by decide⟩
  rw [pushPaint_not_mem_raw bigPal newPaint bigPal_cache_eq hnm]
  show u16Wrap bigPal.paints.length = 0
  rw [hlen]
  rfl

/-! ### C7 -/

theorem scbAllocate_oracle (b : Option SolidColorTileBuilderData) (al : TextureAllocator)
    (loc : TextureLocation) (b' : Option SolidColorTileBuilderData)
    (al' : TextureAllocator) (h : scbAllocate b al = some (loc, b', al')) :
    al'.oracle = al.oracle := by
  unfold scbAllocate TextureAllocator.allocate at h
  cases b with
  | some data =>
    simp only [Option.some.injEq] at h
    obtain ⟨-, -, rfl⟩ := h
    rfl
  | none =>
    cases ho : al.oracle al.allocCount with
    | none => rw [ho] at h; simp at h
    | some o =>
      rw [ho] at h
      simp only [Option.some.injEq] at h
      obtain ⟨-, -, rfl⟩ := h
      rfl

theorem scbAllocate_total (b : Option SolidColorTileBuilderData) (al : TextureAllocator)
    (h : ∀ k, (al.oracle k).isSome) : scbAllocate b al ≠ none := by
  unfold scbAllocate TextureAllocator.allocate
  cases b with
  | some data => simp
  | none =>
    have hk := h al.allocCount
    cases ho : al.oracle al.allocCount with
    | none => rw [ho] at hk; simp at hk
    | some o => simp [ho]

theorem buildGo_gradient (O : Nat → Option Vector2I) :
    ∀ (l : List Paint) (al : TextureAllocator) (b : Option SolidColorTileBuilderData)
      (tex : PaintTexels) (md : List PaintMetadata),
      al.oracle = O → (∃ g, Paint.gradient g ∈ l) →
      (∃ e, buildPaintInfoGo al b tex md l = .error e) ∧
        ((∀ k, (O k).isSome) →
          buildPaintInfoGo al b tex md l = .error .unimplementedPaintKind) := by
  intro l
  induction l with
  | nil =>
    intro al b tex md _ hg
    rcases hg with ⟨g, hmem⟩
    cases hmem
  | cons paint rest ih =>
    intro al b tex md hal hg
    cases paint with
    | gradient g => exact ⟨⟨.unimplementedPaintKind, rfl⟩, fun _ => rfl⟩
    | color c =>
      have hg' : ∃ g, Paint.gradient g ∈ rest := by
        rcases hg with ⟨g, hmem⟩
        rcases List.mem_cons.1 hmem with he | hm
        · cases he
        · exact ⟨g, hm⟩
      cases hsa : scbAllocate b al with
      | none =>
        constructor
        · exact ⟨.allocationFailed, by simp only [buildPaintInfoGo, hsa]⟩
        · intro htotal
          have := scbAllocate_total b al (by rw [hal]; exact htotal)
          exact absurd hsa this
      | some res =>
        obtain ⟨loc, b', al'⟩ := res
        have hal' : al'.oracle = O := by
          rw [scbAllocate_oracle _ _ _ _ _ hsa, hal]
        constructor
        · simp only [buildPaintInfoGo, hsa]
          exact (ih al' b' _ _ hal' hg').1
        · intro htotal
          simp only [buildPaintInfoGo, hsa]
          exact (ih al' b' _ _ hal' hg').2 htotal

/-- C7: if a palette contains at least one gradient paint,
`build_paint_info` never returns a `PaintInfo` — it surfaces an error — and
whenever the external allocator can satisfy every request (so the build is
not aborted earlier by allocator exhaustion, the only other panic site), the
surfaced condition is exactly the `unimplemented!()` paint-kind panic. -/
theorem c7_thm (pal : Palette) (O : Nat → Option Vector2I)
    (hg : ∃ g, Paint.gradient g ∈ pal.paints) :
    (∃ e, pal.buildPaintInfo O = .error e) ∧
      ((∀ k, (O k).isSome) →
        pal.buildPaintInfo O = .error .unimplementedPaintKind) := by
  have h := buildGo_gradient O pal.paints ⟨O, 0⟩ none (fun _ => 0) [] rfl hg
  unfold Palette.buildPaintInfo
  constructor
  · rcases h.1 with ⟨e, he⟩
    exact ⟨e, by rw [he]⟩
  · intro htotal
    rw [h.2 htotal]

/-- An empty gradient paint. -/
def gEx : Gradient := Gradient.new (0, 0, 1, 0)

/-- A palette holding a single gradient paint. -/
def palG : Palette := ⟨[Paint.gradient gEx], cacheOf [Paint.gradient gEx]⟩

/-- C7 witness: the theorem applied to `palG` with an inexhaustible
allocator oracle. -/
theorem c7_witness :
    palG.buildPaintInfo (fun _ => some ⟨0, 0⟩) = .error .unimplementedPaintKind :=
  (c7_thm palG (fun _ => some ⟨0, 0⟩) ⟨gEx, List.mem_singleton.2 rfl⟩).2 (fun _ => rfl)

/-! ### C6 -/

/-- The origin of the `j`-th region granted by the oracle (the placeholder
is never reached when the oracle answers the request). -/
def regionOrigin (O : Nat → Option Vector2I) (j : Nat) : Vector2I := (O j).getD ⟨0, 0⟩

/-- The location returned by the `k`-th `SolidColorTileBuilder::allocate`
call (0-based): the 1x1 sub-rectangle at row-major slot `k % 256` of the
`k / 256`-th granted 16x16 region. -/
def locAt (O : Nat → Option Vector2I) (k : Nat) : TextureLocation :=
  ⟨⟨regionOrigin O (k / 256) +
      ⟨((k % 256) % 16 : Nat), ((k % 256) / 16 : Nat)⟩, ⟨1, 1⟩⟩⟩

/-- Full characterization of `n` builder calls: the returned locations are
`locAt 0 .. locAt (n-1)`, the open tile is at fill index `n % 256` (closed
exactly at multiples of 256), and the allocator has granted
`⌈n / 256⌉ = (n + 255) / 256` regions. -/
theorem scbRun_spec (O : Nat → Option Vector2I) :
    ∀ n, (∀ j, j < (n + 255) / 256 → (O j).isSome) →
      scbRun O n = some ((List.range n).map (locAt O),
        (if n % 256 = 0 then none
          else some ⟨⟨⟨regionOrigin O (n / 256), ⟨16, 16⟩⟩⟩, n % 256⟩),
        ⟨O, (n + 255) / 256⟩) := by
  intro n
  induction n with
  | zero =>
    intro _
    have h0 : (0 + 255) / 256 = 0 := by norm_num
    simp [scbRun, h0]
  | succ n ih =>
    intro hsome
    have hstep : (n + 255) / 256 ≤ (n + 1 + 255) / 256 := by omega
    have hsome' : ∀ j, j < (n + 255) / 256 → (O j).isSome := by
      intro j hj
      exact hsome j (by omega)
    simp only [scbRun, ih hsome']
    by_cases hn : n % 256 = 0
    · have hidx : (n + 255) / 256 = n / 256 := by omega
      have hlt : n / 256 < (n + 1 + 255) / 256 := by omega
      have hv := hsome (n / 256) hlt
      rw [Option.isSome_iff_exists] at hv
      obtain ⟨v, hv⟩ := hv
      simp only [if_pos hn]
      unfold scbAllocate TextureAllocator.allocate
      simp only [hidx, hv]
      have hmod1 : (n + 1) % 256 = 1 := by omega
      have hdiv1 : (n + 1) / 256 = n / 256 := by omega
      have hcount : (n + 255) / 256 + 1 = (n + 1 + 255) / 256 := by omega
      simp only [Option.some.injEq, Prod.mk.injEq, solidColorTileLength, maxSolidColorsPerTile]
      refine ⟨?_, ?_, ?_⟩
      · rw [List.range_succ, List.map_append]
        simp only [List.map_cons, List.map_nil]
        congr 1
        unfold locAt regionOrigin
        rw [hv]
        simp [hn, hdiv1]
      · have h256 : ¬ (0 + 1 = 256) := by omega
        simp only [h256, if_false, hmod1, hdiv1]
        have hone : ¬ ((1 : Nat) = 0) := by omega
        simp only [hone, if_false]
        unfold regionOrigin
        rw [hv]
        simp
      · congr 1
        omega
    · simp only [if_neg hn]
      unfold scbAllocate
      simp only [maxSolidColorsPerTile, solidColorTileLength]
      have hmodsucc : (n + 1) % 256 = n % 256 + 1 ∨ (n % 256 = 255 ∧ (n + 1) % 256 = 0) := by
        omega
      have hdiv1 : (n + 1) / 256 = n / 256 ∨ (n % 256 = 255 ∧ (n + 1) / 256 = n / 256 + 1) := by
        omega
      have hcount : (n + 255) / 256 = (n + 1 + 255) / 256 := by omega
      simp only [Option.some.injEq, Prod.mk.injEq]
      refine ⟨?_, ?_, ?_⟩
      · rw [List.range_succ, List.map_append]
        simp only [List.map_cons, List.map_nil]
        rfl
      · by_cases hfull : n % 256 + 1 = 256
        · have hmod0 : (n + 1) % 256 = 0 := by omega
          simp only [hfull, if_pos rfl, hmod0]
          simp
        · have hmod : (n + 1) % 256 = n % 256 + 1 := by omega
          have hdiv : (n + 1) / 256 = n / 256 := by omega
          have hne0 : ¬ ((n + 1) % 256 = 0) := by omega
          simp only [hfull, if_false, hmod, hdiv, hne0]
          simp
      · rw [hcount]

theorem rectDisjoint_of_contains (R r S s : RectI) (hr : rectContains R r)
    (hs : rectContains S s) (h : rectDisjoint R S) : rectDisjoint r s := by
  unfold rectContains rectDisjoint at *
  omega

theorem locAt_contains (O : Nat → Option Vector2I) (k : Nat) :
    rectContains ⟨regionOrigin O (k / 256), ⟨16, 16⟩⟩ (locAt O k).rect := by
  unfold rectContains locAt
  simp only [Vector2I.add_def]
  have h1 : k % 256 % 16 < 16 := by omega
  have h2 : k % 256 / 16 < 16 := by omega
  refine ⟨by omega, by omega, ?_, ?_⟩ <;> simp <;> omega

theorem locAt_disjoint_same_region (O : Nat → Option Vector2I) (k k' : Nat)
    (hne : k ≠ k') (hsame : k / 256 = k' / 256) :
    rectDisjoint (locAt O k).rect (locAt O k').rect := by
  unfold rectDisjoint locAt
  simp only [Vector2I.add_def, hsame]
  have hmod : k % 256 ≠ k' % 256 := by omega
  have hsub : k % 256 % 16 ≠ k' % 256 % 16 ∨ k % 256 / 16 ≠ k' % 256 / 16 := by omega
  rcases hsub with h | h
  · rcases Nat.lt_or_ge (k % 256 % 16) (k' % 256 % 16) with hlt | hge
    · left; simp; omega
    · right; left; simp; omega
  · rcases Nat.lt_or_ge (k % 256 / 16) (k' % 256 / 16) with hlt | hge
    · right; right; left; simp; omega
    · right; right; right; simp; omega

/-- C6: for any oracle that grants enough pairwise disjoint 16x16 regions,
`n` consecutive `allocate` calls succeed and return the locations
`locAt 0 .. locAt (n-1)`: pairwise disjoint 1x1 rectangles, each inside the
granted region it was carved from, with the allocator consulted exactly
`⌈n / 256⌉` times — so after 257 calls exactly two 16x16 tiles have been
opened. -/
theorem c6_thm (O : Nat → Option Vector2I) (n : Nat)
    (hsome : ∀ j, j < (n + 255) / 256 → (O j).isSome)
    (hdisj : ∀ j, j < (n + 255) / 256 → ∀ j', j' < (n + 255) / 256 → j ≠ j' →
      rectDisjoint ⟨regionOrigin O j, ⟨16, 16⟩⟩ ⟨regionOrigin O j', ⟨16, 16⟩⟩) :
    ∃ bst, scbRun O n =
        some ((List.range n).map (locAt O), bst, ⟨O, (n + 255) / 256⟩) ∧
      ((List.range n).map (locAt O)).length = n ∧
      (∀ k, k < n → rectContains ⟨regionOrigin O (k / 256), ⟨16, 16⟩⟩ (locAt O k).rect) ∧
      (∀ k, k < n → ∀ k', k' < n → k ≠ k' →
        rectDisjoint (locAt O k).rect (locAt O k').rect) := by
  refine ⟨_, scbRun_spec O n hsome, by simp, fun k _ => locAt_contains O k, ?_⟩
  intro k hk k' hk' hne
  by_cases hsame : k / 256 = k' / 256
  · exact locAt_disjoint_same_region O k k' hne hsame
  · refine rectDisjoint_of_contains _ _ _ _ (locAt_contains O k) (locAt_contains O k') ?_
    refine hdisj (k / 256) (by omega) (k' / 256) (by omega) hsame

/-- C6 witness: 257 calls against an oracle granting disjoint regions at
x = 0 and x = 16; the allocator is consulted exactly twice. -/
theorem c6_witness :
    ∃ bst, scbRun (fun j => some ⟨16 * (j : Int), 0⟩) 257 =
        some ((List.range 257).map (locAt (fun j => some ⟨16 * (j : Int), 0⟩)), bst,
          ⟨(fun j => some ⟨16 * (j : Int), 0⟩), (257 + 255) / 256⟩) ∧
      ((List.range 257).map (locAt (fun j => some ⟨16 * (j : Int), 0⟩))).length = 257 ∧
      (∀ k, k < 257 →
        rectContains ⟨regionOrigin (fun j => some ⟨16 * (j : Int), 0⟩) (k / 256), ⟨16, 16⟩⟩
          (locAt (fun j => some ⟨16 * (j : Int), 0⟩) k).rect) ∧
      (∀ k, k < 257 → ∀ k', k' < 257 → k ≠ k' →
        rectDisjoint (locAt (fun j => some ⟨16 * (j : Int), 0⟩) k).rect
          (locAt (fun j => some ⟨16 * (j : Int), 0⟩) k').rect) :=
  c6_thm (fun j => some ⟨16 * (j : Int), 0⟩) 257 (by decide) (by decide)

/-! ### C4 -/

theorem get?_eq_getD_of_lt {α : Type} (l : List α) (n : Nat) (d : α) (h : n < l.length) :
    l.get? n = some (l.getD n d) := by
  simp [List.get?_eq_getElem?, List.getElem?_eq_getElem h, List.getD_eq_getElem?_getD]

theorem buildGo_spec (zb : ZBuffer) (paths : List PathObject)
    (paintMetadata : List PaintMetadata) (rangeStart rangeEnd : Nat) :
    ∀ is : List Nat,
      (∀ i ∈ is, zb.data.getD i 0 ≤ 65536) →
      (∀ i ∈ is, zb.qualifies rangeStart rangeEnd i = true →
        zb.data.getD i 0 - 1 < paths.length ∧
          (paths.getD (zb.data.getD i 0 - 1) ⟨0⟩).paint < paintMetadata.length) →
      buildSolidTilesGo zb paths paintMetadata rangeStart rangeEnd is =
        some ((is.filter (zb.qualifies rangeStart rangeEnd)).map
          (zb.primAt paths paintMetadata)) := by
  intro is
  induction is with
  | nil => intro _ _; rfl
  | cons i rest ih =>
    intro hdepth hbounds
    have hdepth' : ∀ j ∈ rest, zb.data.getD j 0 ≤ 65536 :=
      fun j hj => hdepth j (List.mem_cons_of_mem i hj)
    have hbounds' : ∀ j ∈ rest, zb.qualifies rangeStart rangeEnd j = true →
        zb.data.getD j 0 - 1 < paths.length ∧
          (paths.getD (zb.data.getD j 0 - 1) ⟨0⟩).paint < paintMetadata.length :=
      fun j hj => hbounds j (List.mem_cons_of_mem i hj)
    have hid : zb.data.getD i 0 ≤ 65536 := hdepth i (List.mem_cons_self i rest)
    have hwrap : u32Wrap (zb.data.getD i 0 - 1) = zb.data.getD i 0 - 1 := by
      unfold u32Wrap
      omega
    by_cases hz : zb.data.getD i 0 = 0
    · have hq : zb.qualifies rangeStart rangeEnd i = false := by
        unfold ZBuffer.qualifies
        simp only [decide_eq_false_iff_not]
        omega
      simp only [buildSolidTilesGo, hz, if_pos rfl, List.filter_cons, hq]
      simp only [Bool.false_eq_true, if_false]
      exact ih hdepth' hbounds'
    · by_cases hr : zb.data.getD i 0 - 1 < rangeStart ∨ rangeEnd ≤ zb.data.getD i 0 - 1
      · have hq : zb.qualifies rangeStart rangeEnd i = false := by
          unfold ZBuffer.qualifies
          simp only [decide_eq_false_iff_not]
          omega
        have hcond : (u32Wrap (zb.data.getD i 0 - 1) < rangeStart ∨
            rangeEnd ≤ u32Wrap (zb.data.getD i 0 - 1)) := by rw [hwrap]; exact hr
        simp only [buildSolidTilesGo, hz, if_neg hz, if_pos hcond, List.filter_cons, hq]
        simp only [Bool.false_eq_true, if_false]
        exact ih hdepth' hbounds'
      · have hq : zb.qualifies rangeStart rangeEnd i = true := by
          unfold ZBuffer.qualifies
          simp only [decide_eq_true_eq]
          omega
        have hcond : ¬ (u32Wrap (zb.data.getD i 0 - 1) < rangeStart ∨
            rangeEnd ≤ u32Wrap (zb.data.getD i 0 - 1)) := by rw [hwrap]; exact hr
        obtain ⟨hplen, hmlen⟩ := hbounds i (List.mem_cons_self i rest) hq
        have hpath : paths.get? (u32Wrap (zb.data.getD i 0 - 1)) =
            some (paths.getD (zb.data.getD i 0 - 1) ⟨0⟩) := by
          rw [hwrap]
          exact get?_eq_getD_of_lt paths _ _ hplen
        have hmeta : paintMetadata.get? ((paths.getD (zb.data.getD i 0 - 1) ⟨0⟩).paint) =
            some (paintMetadata.getD ((paths.getD (zb.data.getD i 0 - 1) ⟨0⟩).paint)
              dummyMetadata) :=
          get?_eq_getD_of_lt paintMetadata _ _ hmlen
        simp only [buildSolidTilesGo, if_neg hz, if_neg hcond, hpath, hmeta,
          List.filter_cons, hq, if_pos rfl]
        rw [ih hdepth' hbounds']
        simp only [Option.map_some', Option.some.injEq, List.map_cons]
        unfold ZBuffer.primAt
        rw [hwrap]
        rfl

/-- C4: for a z-buffer state reached after all writers have finished (every
counter is at most 65536, the largest value a `u16 + 1` update can store)
and inputs where every qualifying tile's recorded object index addresses a
valid path whose paint id addresses valid metadata, `build_solid_tiles`
returns exactly one primitive per tile with a nonzero counter whose recorded
object index `counter - 1` lies in the half-open range, none for the other
tiles, in the buffer's tile iteration order. -/
theorem c4_thm (zb : ZBuffer) (paths : List PathObject)
    (paintMetadata : List PaintMetadata) (rangeStart rangeEnd : Nat)
    (hdepth : ∀ d ∈ zb.data, d ≤ 65536)
    (hbounds : ∀ i, i < zb.data.length → zb.qualifies rangeStart rangeEnd i = true →
      zb.data.getD i 0 - 1 < paths.length ∧
        (paths.getD (zb.data.getD i 0 - 1) ⟨0⟩).paint < paintMetadata.length) :
    zb.buildSolidTiles paths paintMetadata rangeStart rangeEnd =
      some (((List.range zb.data.length).filter (zb.qualifies rangeStart rangeEnd)).map
        (zb.primAt paths paintMetadata)) := by
  apply buildGo_spec
  · intro i hi
    have hlt : i < zb.data.length := List.mem_range.1 hi
    have : zb.data.getD i 0 ∈ zb.data := by
      simp only [List.getD_eq_getElem?_getD, List.getElem?_eq_getElem hlt]
      exact List.getElem_mem hlt
    exact hdepth _ this
  · intro i hi
    exact hbounds i (List.mem_range.1 hi)

/-- The z-buffer of the C4 witness: a 2x2 tile grid with counters
(0, 1, 3, 0), i.e. tiles 1 and 2 were touched with recorded object indices
0 and 2. -/
def zbW : ZBuffer := ⟨0, 0, 2, [0, 1, 3, 0]⟩

def pathsW : List PathObject := [⟨0⟩, ⟨0⟩, ⟨1⟩]

def metaW : List PaintMetadata :=
  [⟨⟨⟨0, 0, 0, 0⟩, ⟨32, 32⟩⟩, true⟩, ⟨⟨⟨0, 0, 0, 0⟩, ⟨96, 32⟩⟩, true⟩]

/-- C4 witness: the theorem applied to the concrete 2x2 buffer. -/
theorem c4_witness :
    zbW.buildSolidTiles pathsW metaW 0 10 =
      some (((List.range zbW.data.length).filter (zbW.qualifies 0 10)).map
        (zbW.primAt pathsW metaW)) :=
  c4_thm zbW pathsW metaW 0 10 (by decide) (by decide)

end PF
